import Mathlib

/-!
Shallow embedding of the game-state engine of `src/src/App.jsx`
("Assembly: Endgame", a hangman variant with a themed penalty ladder).

The React component keeps two pieces of state, `currentWord : String` and
`guessedLetters : List String` (an array of one-character strings in the
source), and derives everything else from them.  JavaScript's
`String.prototype.includes` is a substring test, and `Array.prototype.includes`
is element membership; both are modelled faithfully below.

`languages.js` and `utils.js` are not part of the sources, so the tier ladder
and the random word source are modelled from the spec where noted.
-/

set_option autoImplicit false

namespace AssemblyEndgame

/-- A penalty-ladder tier, as imported from `languages.js` in the source:
a display name plus two style colors. -/
structure Language where
  name : String
  backgroundColor : String
  color : String
deriving DecidableEq

/-- Modelled from the spec: `languages.js` is not under `src/`.  Section 3 of
the spec fixes the ladder as an ordered sequence of N tiers with observed
N = 8; the names and colors are reference data the claims never inspect. -/
def languages : List Language :=
  [⟨"tier0", "bg0", "fg0"⟩, ⟨"tier1", "bg1", "fg1"⟩,
   ⟨"tier2", "bg2", "fg2"⟩, ⟨"tier3", "bg3", "fg3"⟩,
   ⟨"tier4", "bg4", "fg4"⟩, ⟨"tier5", "bg5", "fg5"⟩,
   ⟨"tier6", "bg6", "fg6"⟩, ⟨"tier7", "bg7", "fg7"⟩]

/-- JavaScript `s.includes(sub)`: contiguous substring containment. -/
def jsStringIncludes (s sub : String) : Bool :=
  decide (sub.toList <:+: s.toList)

/-- `const guessesLeft = languages.length - 1` (App.jsx line 21). -/
def guessesLeft : Nat := languages.length - 1

/-- `guessedLetters.filter(letter => !currentWord.includes(letter)).length`
(App.jsx line 24). -/
def wrongGuessCount (currentWord : String) (guessedLetters : List String) : Nat :=
  (guessedLetters.filter (fun letter => !(jsStringIncludes currentWord letter))).length

/-- `currentWord.split("").every(letter => guessedLetters.includes(letter))`
(App.jsx line 30); `split("")` yields one-character strings. -/
def isGameWon (currentWord : String) (guessedLetters : List String) : Bool :=
  currentWord.toList.all (fun letter => guessedLetters.contains (String.singleton letter))

/-- `wrongGuessCount >= guessesLeft` (App.jsx line 33). -/
def isGameLost (currentWord : String) (guessedLetters : List String) : Bool :=
  decide (guessesLeft ≤ wrongGuessCount currentWord guessedLetters)

/-- `isGameWon || isGameLost` (App.jsx line 36). -/
def isGameOver (currentWord : String) (guessedLetters : List String) : Bool :=
  isGameWon currentWord guessedLetters || isGameLost currentWord guessedLetters

/-- `guessedLetters[guessedLetters.length - 1]` (App.jsx line 39), `undefined`
(here `none`) on an empty array. -/
def lastGuessedLetter (guessedLetters : List String) : Option String :=
  guessedLetters.getLast?

/-- `lastGuessedLetter && !currentWord.includes(lastGuessedLetter)`
(App.jsx line 42).  Despite its source name this computes "the last guess was
WRONG": `undefined` is falsy, so the result is false on an empty guess list. -/
def isLastGuessCorrect (currentWord : String) (guessedLetters : List String) : Bool :=
  match lastGuessedLetter guessedLetters with
  | none => false
  | some l => !(jsStringIncludes currentWord l)

/-- `const alphabet = "abcdefghijklmnopqrstuvwxyz"` (App.jsx line 45). -/
def alphabet : String := "abcdefghijklmnopqrstuvwxyz"

/-- `addGuessedLetter` (App.jsx lines 48-54): append the letter unless it was
already guessed; no validation, no game-over guard, no failure path. -/
def addGuessedLetter (letter : String) (prevLetters : List String) : List String :=
  if prevLetters.contains letter then prevLetters
  else prevLetters ++ [letter]

/-- The three computed phases of the spec's state machine.  The source stores
no phase; `gameStatus` (App.jsx lines 71-97) and `gameStatusClass` check
`isGameWon` before `isGameLost`. -/
inductive Phase where
  | Playing
  | Won
  | Lost
deriving DecidableEq

/-- Phase derived exactly as the source orders its checks: won first,
then lost, else playing. -/
def phase (currentWord : String) (guessedLetters : List String) : Phase :=
  if isGameWon currentWord guessedLetters then Phase.Won
  else if isGameLost currentWord guessedLetters then Phase.Lost
  else Phase.Playing

/-- `const isLanguageLost = index < wrongGuessCount` (App.jsx line 104). -/
def isLanguageLost (index : Nat) (currentWord : String) (guessedLetters : List String) : Bool :=
  decide (index < wrongGuessCount currentWord guessedLetters)

/-- The `lost` flags of `languageElements` (App.jsx lines 103-118), one per
ladder tier in order. -/
def tierLossMap (currentWord : String) (guessedLetters : List String) : List Bool :=
  (List.range languages.length).map
    (fun index => isLanguageLost index currentWord guessedLetters)

/-- The `revealLetter` flags of `letterElements` (App.jsx lines 123-133), one
per character position of the word: revealed iff the game is lost or the
letter was guessed. -/
def revealMap (currentWord : String) (guessedLetters : List String) : List Bool :=
  currentWord.toList.map
    (fun letter =>
      isGameLost currentWord guessedLetters ||
        guessedLetters.contains (String.singleton letter))

/-- `!isGameOver && isLastGuessCorrect`, the farewell arm of `gameStatusClass`
and `gameStatus` (App.jsx lines 64-73). -/
def farewellEligible (currentWord : String) (guessedLetters : List String) : Bool :=
  !isGameOver currentWord guessedLetters && isLastGuessCorrect currentWord guessedLetters

/-- The `languages[wrongGuessCount - 1]` lookup in `gameStatus`
(App.jsx line 73), as an explicit optional lookup. -/
def activeFarewellLanguage (currentWord : String) (guessedLetters : List String) :
    Option Language :=
  languages.get? (wrongGuessCount currentWord guessedLetters - 1)

/-- The component state: `currentWord` and `guessedLetters`
(App.jsx lines 15-18). -/
structure GameState where
  currentWord : String
  guessedLetters : List String
deriving DecidableEq

/-- Modelled from the spec: `getRandomWord` in `utils.js` is not under `src/`.
Section 4.1 says `pickWord()` returns a non-empty lowercase word from a fixed
candidate list; we keep the word abstract, constrained by this predicate. -/
def validWord (w : String) : Prop :=
  w.length > 0 ∧ ∀ c ∈ w.toList, c.isLower = true

instance (w : String) : Decidable (validWord w) := by
  unfold validWord; infer_instance

/-- `newGame` (App.jsx lines 57-60): install a fresh word (the `getRandomWord`
result passed here as the parameter `w`) and clear the guesses; the prior
state is discarded wholesale. -/
def newGame (_prior : GameState) (w : String) : GameState :=
  ⟨w, []⟩

/-- The letter strings the on-screen keyboard can pass to `addGuessedLetter`
(App.jsx lines 143-161): the 26 one-character lowercase strings. -/
def keyboardLetters : List String :=
  alphabet.toList.map String.singleton

/-- One engine command as the source exposes it: `newGame`, or a keyboard
guess routed to `addGuessedLetter` — which the engine applies unconditionally,
with no game-over guard of its own. -/
inductive Step : GameState → GameState → Prop where
  | newGame (s : GameState) (w : String) (hw : validWord w) : Step s ⟨w, []⟩
  | guess (s : GameState) (l : String) (hl : l ∈ keyboardLetters) :
      Step s ⟨s.currentWord, addGuessedLetter l s.guessedLetters⟩

/-- States reachable from a fresh round by any sequence of commands. -/
inductive Reachable : GameState → Prop where
  | init (w : String) (hw : validWord w) : Reachable ⟨w, []⟩
  | step {s t : GameState} : Reachable s → Step s t → Reachable t

/-- An engine command as the rendered view actually delivers it: the keyboard
buttons carry `disabled={isGameOver}`, so a guess is only ever delivered while
the game is not over. -/
inductive GuardedStep : GameState → GameState → Prop where
  | newGame (s : GameState) (w : String) (hw : validWord w) : GuardedStep s ⟨w, []⟩
  | guess (s : GameState) (l : String) (hl : l ∈ keyboardLetters)
      (hover : isGameOver s.currentWord s.guessedLetters = false) :
      GuardedStep s ⟨s.currentWord, addGuessedLetter l s.guessedLetters⟩

/-- States reachable when guesses are only applied while the game is not over,
as the view's disabled buttons enforce. -/
inductive GuardedReachable : GameState → Prop where
  | init (w : String) (hw : validWord w) : GuardedReachable ⟨w, []⟩
  | step {s t : GameState} : GuardedReachable s → GuardedStep s t → GuardedReachable t

/-! ### Helper lemmas about the embedded engine -/

theorem jsStringIncludes_singleton_of_mem {w : String} {c : Char}
    (h : c ∈ w.toList) : jsStringIncludes w (String.singleton c) = true := by
  have hsing : String.toList (String.singleton c) = [c] := rfl
  unfold jsStringIncludes
  rw [hsing]
  obtain ⟨s, t, hst⟩ := List.append_of_mem h
  exact decide_eq_true ⟨s, t, by rw [hst]; simp⟩

theorem addGuessedLetter_of_mem {g : List String} {l : String}
    (h : g.contains l = true) : addGuessedLetter l g = g := by
  have h' : l ∈ g := List.mem_of_elem_eq_true h
  simp [addGuessedLetter, h']

theorem addGuessedLetter_of_not_mem {g : List String} {l : String}
    (h : g.contains l = false) : addGuessedLetter l g = g ++ [l] := by
  have h' : l ∉ g := by simpa [List.elem_eq_mem] using h
  simp [addGuessedLetter, h']

theorem wrongGuessCount_append (w : String) (g : List String) (l : String) :
    wrongGuessCount w (g ++ [l]) =
      wrongGuessCount w g + (if jsStringIncludes w l = true then 0 else 1) := by
  unfold wrongGuessCount
  rw [List.filter_append, List.length_append]
  congr 1
  by_cases h : jsStringIncludes w l = true
  · simp [h]
  · simp only [Bool.not_eq_true] at h
    simp [h]

theorem mem_of_getLast?_eq_some {l : List String} {a : String}
    (h : l.getLast? = some a) : a ∈ l :=
  List.mem_of_mem_getLast? h

theorem one_le_wrongGuessCount_of_last_wrong {w : String} {g : List String}
    (h : isLastGuessCorrect w g = true) : 1 ≤ wrongGuessCount w g := by
  unfold isLastGuessCorrect lastGuessedLetter at h
  cases hl : g.getLast? with
  | none => rw [hl] at h; exact absurd h (by simp)
  | some l =>
    rw [hl] at h
    have hm : l ∈ g := mem_of_getLast?_eq_some hl
    have hmem : l ∈ g.filter (fun letter => !(jsStringIncludes w letter)) :=
      List.mem_filter.mpr ⟨hm, h⟩
    exact List.length_pos.mpr (List.ne_nil_of_mem hmem)

theorem wrongGuessCount_lt_of_not_lost {w : String} {g : List String}
    (h : isGameLost w g = false) : wrongGuessCount w g < guessesLeft := by
  unfold isGameLost at h
  rw [decide_eq_false_iff_not] at h
  omega

theorem isGameWon_append_wrong {w : String} {g : List String} {l : String}
    (hl : jsStringIncludes w l = false)
    (h : isGameWon w (g ++ [l]) = true) : isGameWon w g = true := by
  rw [isGameWon, List.all_eq_true] at h ⊢
  intro c hc
  have hc' := h c hc
  simp only [List.elem_eq_mem, decide_eq_true_eq, List.mem_append,
    List.mem_singleton] at hc'
  simp only [List.elem_eq_mem, decide_eq_true_eq]
  rcases hc' with hg | hsing
  · exact hg
  · exfalso
    rw [← hsing, jsStringIncludes_singleton_of_mem hc] at hl
    exact Bool.noConfusion hl

theorem wrongGuessCount_perm {w : String} {g₁ g₂ : List String}
    (h : g₁.Perm g₂) : wrongGuessCount w g₁ = wrongGuessCount w g₂ :=
  (h.filter _).length_eq

theorem getD_map_range (f : Nat → Bool) (n i : Nat) (h : i < n) :
    ((List.range n).map f).getD i false = f i := by
  rw [List.getD_eq_getElem?_getD, List.getElem?_map, List.getElem?_range h]
  rfl

/-- A convenience step for exhibiting reachable states: a keyboard guess whose
result has been computed. -/
theorem Reachable.guessTo {w : String} {g g' : List String}
    (h : Reachable ⟨w, g⟩) (l : String) (hl : l ∈ keyboardLetters)
    (he : addGuessedLetter l g = g') : Reachable ⟨w, g'⟩ := by
  subst he
  exact h.step (Step.guess ⟨w, g⟩ l hl)

/-! ### Claims -/

/-- **C4**: for every secret word and guess set, as soon as every distinct
letter of the secret word is contained in the guesses, the game is won and the
phase is `Won`, regardless of how many wrong guesses were accumulated first,
provided `wrongGuessCount < guessesLeft` at that point. -/
theorem c4_all_letters_guessed_wins (w : String) (g : List String)
    (hall : ∀ c ∈ w.toList, g.contains (String.singleton c) = true)
    (hwc : wrongGuessCount w g < guessesLeft) :
    isGameWon w g = true ∧ isGameLost w g = false ∧ phase w g = Phase.Won := by
  have hwon : isGameWon w g = true := by
    rw [isGameWon, List.all_eq_true]
    exact hall
  have hlost : isGameLost w g = false := by
    rw [isGameLost, decide_eq_false_iff_not]
    omega
  exact ⟨hwon, hlost, by simp [phase, hwon]⟩

/-- Witness for C4: the word "cat" with a wrong guess "x" accumulated before
the three letters of the word. -/
theorem c4_witness :
    isGameWon "cat" ["x", "c", "a", "t"] = true ∧
    isGameLost "cat" ["x", "c", "a", "t"] = false ∧
    phase "cat" ["x", "c", "a", "t"] = Phase.Won :=
  c4_all_letters_guessed_wins "cat" ["x", "c", "a", "t"] (by decide) (by decide)

/-- **C5**: the maximum number of wrong guesses is the ladder length minus
one, `isGameLost` holds exactly at that threshold, and for the word "cat" the
guess sequence x, y, z, q, w, e, r reaches `Lost` exactly at the seventh wrong
guess, with tiers 0 through 6 marked lost and tier 7 not lost. -/
theorem c5_loss_threshold_and_ladder_scenario :
    guessesLeft = languages.length - 1 ∧
    (∀ (w : String) (g : List String),
        isGameLost w g = true ↔ guessesLeft ≤ wrongGuessCount w g) ∧
    phase "cat" ["x", "y", "z", "q", "w", "e"] = Phase.Playing ∧
    phase "cat" ["x", "y", "z", "q", "w", "e", "r"] = Phase.Lost ∧
    tierLossMap "cat" ["x", "y", "z", "q", "w", "e", "r"] =
      [true, true, true, true, true, true, true, false] := by
  refine ⟨rfl, fun w g => ?_, by decide, by decide, by decide⟩
  rw [isGameLost]
  simp

/-- **C8**: re-guessing a letter already in the guess set is a no-op: the
guess list, the wrong-guess count, the phase and the reveal map are all
unchanged, and nothing fails. -/
theorem c8_reguess_is_noop (w : String) (g : List String) (l : String)
    (h : g.contains l = true) :
    addGuessedLetter l g = g ∧
    wrongGuessCount w (addGuessedLetter l g) = wrongGuessCount w g ∧
    phase w (addGuessedLetter l g) = phase w g ∧
    revealMap w (addGuessedLetter l g) = revealMap w g := by
  have he : addGuessedLetter l g = g := addGuessedLetter_of_mem h
  exact ⟨he, by rw [he], by rw [he], by rw [he]⟩

/-- Witness for C8: re-guessing "x" on the word "cat" after guesses c, x. -/
theorem c8_witness :
    addGuessedLetter "x" ["c", "x"] = ["c", "x"] ∧
    wrongGuessCount "cat" (addGuessedLetter "x" ["c", "x"]) =
      wrongGuessCount "cat" ["c", "x"] ∧
    phase "cat" (addGuessedLetter "x" ["c", "x"]) = phase "cat" ["c", "x"] ∧
    revealMap "cat" (addGuessedLetter "x" ["c", "x"]) = revealMap "cat" ["c", "x"] :=
  c8_reguess_is_noop "cat" ["c", "x"] "x" (by decide)

/-- **C10**: the win check does not enforce non-emptiness of the word: with an
empty secret word and an empty guess set, `isGameWon` is vacuously true and
the round begins in the `Won` phase. -/
theorem c10_empty_word_starts_won :
    isGameWon "" [] = true ∧ isGameLost "" [] = false ∧
    phase "" [] = Phase.Won := by
  decide

/-- Counterexample to **C2**: with the word "cat" and the seven wrong guesses
x, y, z, q, w, e, r the game is over, yet `addGuessedLetter` applied to the
fresh letter "c" changes the state — the engine does not ignore or reject
guesses once the game is over. -/
theorem c2_counterexample :
    isGameOver "cat" ["x", "y", "z", "q", "w", "e", "r"] = true ∧
    addGuessedLetter "c" ["x", "y", "z", "q", "w", "e", "r"] ≠
      ["x", "y", "z", "q", "w", "e", "r"] := by
  decide

/-- **C2** (amended): once the game is over, `addGuessedLetter` leaves the
state unchanged only for letters already guessed; any fresh letter is still
appended, because the engine itself has no game-over guard — only the view's
disabled buttons prevent such guesses. -/
theorem c2_no_game_over_guard_in_engine (w : String) (g : List String)
    (l : String) (_hover : isGameOver w g = true) (hnew : g.contains l = false) :
    addGuessedLetter l g = g ++ [l] ∧ addGuessedLetter l g ≠ g := by
  refine ⟨addGuessedLetter_of_not_mem hnew, ?_⟩
  rw [addGuessedLetter_of_not_mem hnew]
  intro hcontra
  have hlen := congrArg List.length hcontra
  rw [List.length_append] at hlen
  simp at hlen

/-- Witness for the amended C2: the lost "cat" round above accepts the fresh
guess "c". -/
theorem c2_witness :
    addGuessedLetter "c" ["x", "y", "z", "q", "w", "e", "r"] =
      ["x", "y", "z", "q", "w", "e", "r"] ++ ["c"] ∧
    addGuessedLetter "c" ["x", "y", "z", "q", "w", "e", "r"] ≠
      ["x", "y", "z", "q", "w", "e", "r"] :=
  c2_no_game_over_guard_in_engine "cat" ["x", "y", "z", "q", "w", "e", "r"] "c"
    (by decide) (by decide)

/-- Counterexample to **C3**: the two-character argument "zz" is not a single
lowercase letter, yet `addGuessedLetter` raises nothing: it appends "zz" to
the guesses, and the bogus guess is even counted as a wrong guess against the
word "cat" while play continues. -/
theorem c3_counterexample :
    addGuessedLetter "zz" [] = ["zz"] ∧
    wrongGuessCount "cat" ["zz"] = 1 ∧
    isGameOver "cat" ["zz"] = false := by
  decide

/-- **C3** (amended): `addGuessedLetter` performs no input validation and has
no failure path: every argument — single lowercase letter or not — is handled
as an ordinary guess, appended when new and counted as a wrong guess whenever
it is not a substring of the word. -/
theorem c3_no_input_validation (w : String) (g : List String) (l : String)
    (hnew : g.contains l = false) :
    addGuessedLetter l g = g ++ [l] ∧
    (jsStringIncludes w l = false →
      wrongGuessCount w (addGuessedLetter l g) = wrongGuessCount w g + 1) := by
  refine ⟨addGuessedLetter_of_not_mem hnew, fun hwr => ?_⟩
  rw [addGuessedLetter_of_not_mem hnew, wrongGuessCount_append]
  simp [hwr]

/-- Witness for the amended C3: the malformed guess "zz" against "cat". -/
theorem c3_witness :
    addGuessedLetter "zz" [] = [] ++ ["zz"] ∧
    wrongGuessCount "cat" (addGuessedLetter "zz" []) = wrongGuessCount "cat" [] + 1 :=
  ⟨(c3_no_input_validation "cat" [] "zz" (by decide)).1,
   (c3_no_input_validation "cat" [] "zz" (by decide)).2 (by decide)⟩

/-- **C9**: `newGame` discards the prior round wholesale: for any prior state
and any non-empty fresh word, the new state is exactly the fresh word paired
with the empty guess list (installed together as one record), the wrong-guess
count is 0, the phase is `Playing`, and the result does not depend on the
prior state in any way. -/
theorem c9_new_game_resets (prior prior₂ : GameState) (w : String)
    (hw : 0 < w.length) :
    newGame prior w = ⟨w, []⟩ ∧
    (newGame prior w).guessedLetters = [] ∧
    wrongGuessCount (newGame prior w).currentWord (newGame prior w).guessedLetters = 0 ∧
    phase (newGame prior w).currentWord (newGame prior w).guessedLetters =
      Phase.Playing ∧
    newGame prior w = newGame prior₂ w := by
  refine ⟨rfl, rfl, rfl, ?_, rfl⟩
  have hwon : isGameWon w [] = false := by
    rw [isGameWon]
    cases hc : w.toList with
    | nil =>
      exfalso
      have hlen : w.toList.length = w.length := rfl
      rw [hc] at hlen
      simp at hlen
      omega
    | cons c cs => simp
  have hlost : isGameLost w [] = false := rfl
  show phase w [] = Phase.Playing
  simp [phase, hwon, hlost]

/-- Witness for C9: a fresh word "dog" over a finished prior round. -/
theorem c9_witness :
    newGame ⟨"cat", ["x", "y"]⟩ "dog" = ⟨"dog", []⟩ ∧
    (newGame ⟨"cat", ["x", "y"]⟩ "dog").guessedLetters = [] ∧
    wrongGuessCount (newGame ⟨"cat", ["x", "y"]⟩ "dog").currentWord
      (newGame ⟨"cat", ["x", "y"]⟩ "dog").guessedLetters = 0 ∧
    phase (newGame ⟨"cat", ["x", "y"]⟩ "dog").currentWord
      (newGame ⟨"cat", ["x", "y"]⟩ "dog").guessedLetters = Phase.Playing ∧
    newGame ⟨"cat", ["x", "y"]⟩ "dog" = newGame ⟨"dog", []⟩ "dog" :=
  c9_new_game_resets ⟨"cat", ["x", "y"]⟩ ⟨"dog", []⟩ "dog" (by decide)

/-- **C6**: the tier-loss map marks the tier at ordinal `i` as lost exactly
when `i < wrongGuessCount` — the first `wrongGuessCount` tiers in ladder order
and no others; the map is invariant under reordering of the guesses, and
adding a correct letter never advances it (only wrong guesses do). -/
theorem c6_tier_loss_map_properties (w : String) (g₁ g₂ : List String)
    (l : String) (i : Nat) (hperm : g₁.Perm g₂)
    (hcorrect : jsStringIncludes w l = true) (hi : i < languages.length) :
    (tierLossMap w g₁).getD i false = decide (i < wrongGuessCount w g₁) ∧
    tierLossMap w g₁ = tierLossMap w g₂ ∧
    tierLossMap w (addGuessedLetter l g₁) = tierLossMap w g₁ := by
  refine ⟨?_, ?_, ?_⟩
  · rw [tierLossMap, getD_map_range _ _ _ hi]
    rfl
  · have hw : wrongGuessCount w g₁ = wrongGuessCount w g₂ := wrongGuessCount_perm hperm
    simp [tierLossMap, isLanguageLost, hw]
  · by_cases hmem : g₁.contains l = true
    · rw [addGuessedLetter_of_mem hmem]
    · have hmem' : g₁.contains l = false := by
        cases hb : g₁.contains l
        · rfl
        · exact absurd hb hmem
      rw [addGuessedLetter_of_not_mem hmem']
      have hwc : wrongGuessCount w (g₁ ++ [l]) = wrongGuessCount w g₁ := by
        rw [wrongGuessCount_append]
        simp [hcorrect]
      simp [tierLossMap, isLanguageLost, hwc]

/-- Witness for C6: word "cat", permuted guess lists [x, c] and [c, x], the
correct letter "a", tier ordinal 0. -/
theorem c6_witness :
    (tierLossMap "cat" ["x", "c"]).getD 0 false =
      decide (0 < wrongGuessCount "cat" ["x", "c"]) ∧
    tierLossMap "cat" ["x", "c"] = tierLossMap "cat" ["c", "x"] ∧
    tierLossMap "cat" (addGuessedLetter "a" ["x", "c"]) = tierLossMap "cat" ["x", "c"] :=
  c6_tier_loss_map_properties "cat" ["x", "c"] ["c", "x"] "a" 0
    (by decide) (by decide) (by decide)

/-- **C7**: the farewell message is shown exactly when the game is not over
and the last guess was wrong; whenever that holds, at least one wrong guess
exists, and the ladder lookup at ordinal `wrongGuessCount - 1` is in bounds,
so `languages[wrongGuessCount - 1]` is always a real tier when the farewell
message is produced. -/
theorem c7_farewell_eligibility_and_bounds (w : String) (g : List String)
    (h : farewellEligible w g = true) :
    isGameOver w g = false ∧ isLastGuessCorrect w g = true ∧
    1 ≤ wrongGuessCount w g ∧
    wrongGuessCount w g - 1 < languages.length ∧
    (activeFarewellLanguage w g).isSome = true := by
  rw [farewellEligible, Bool.and_eq_true] at h
  obtain ⟨hover, hlast⟩ := h
  rw [Bool.not_eq_true'] at hover
  have h1 : 1 ≤ wrongGuessCount w g := one_le_wrongGuessCount_of_last_wrong hlast
  have hlost : isGameLost w g = false := by
    rw [isGameOver, Bool.or_eq_false_iff] at hover
    exact hover.2
  have hlt : wrongGuessCount w g < guessesLeft := wrongGuessCount_lt_of_not_lost hlost
  have h7 : guessesLeft = 7 := rfl
  have h8 : languages.length = 8 := rfl
  have hbound : wrongGuessCount w g - 1 < languages.length := by omega
  refine ⟨by rw [isGameOver, Bool.or_eq_false_iff] at hover ⊢; exact hover,
    hlast, h1, hbound, ?_⟩
  rw [activeFarewellLanguage, List.get?_eq_getElem?,
    List.getElem?_eq_getElem hbound]
  rfl

/-- Witness for C7: word "cat" after the single wrong guess "x". -/
theorem c7_witness :
    isGameOver "cat" ["x"] = false ∧ isLastGuessCorrect "cat" ["x"] = true ∧
    1 ≤ wrongGuessCount "cat" ["x"] ∧
    wrongGuessCount "cat" ["x"] - 1 < languages.length ∧
    (activeFarewellLanguage "cat" ["x"]).isSome = true :=
  c7_farewell_eligibility_and_bounds "cat" ["x"] (by decide)

/-- With an empty guess list the game is never lost, so a fresh round is
never simultaneously won and lost. -/
theorem not_won_and_lost_nil (cw : String) :
    ¬(isGameWon cw [] = true ∧ isGameLost cw [] = true) := by
  rintro ⟨-, hlost⟩
  simp [isGameLost, wrongGuessCount, guessesLeft, languages] at hlost

/-- A single guess applied to a not-yet-over state never produces a state
that is simultaneously won and lost: a duplicate or correct guess leaves the
wrong-guess count below the threshold, and a wrong guess cannot complete the
word. -/
theorem not_won_and_lost_step (cw : String) (g : List String) (l : String)
    (hover : isGameOver cw g = false) :
    ¬(isGameWon cw (addGuessedLetter l g) = true ∧
      isGameLost cw (addGuessedLetter l g) = true) := by
  rintro ⟨hwon, hlost⟩
  rw [isGameOver, Bool.or_eq_false_iff] at hover
  obtain ⟨hw0, hl0⟩ := hover
  by_cases hmem : g.contains l = true
  · rw [addGuessedLetter_of_mem hmem] at hlost
    rw [hlost] at hl0
    exact Bool.noConfusion hl0
  · have hmem' : g.contains l = false := by
      cases hb : g.contains l
      · rfl
      · exact absurd hb hmem
    rw [addGuessedLetter_of_not_mem hmem'] at hwon hlost
    by_cases hincl : jsStringIncludes cw l = true
    · have hwc : wrongGuessCount cw (g ++ [l]) = wrongGuessCount cw g := by
        rw [wrongGuessCount_append]
        simp [hincl]
      rw [isGameLost, hwc] at hlost
      rw [isGameLost] at hl0
      rw [hlost] at hl0
      exact Bool.noConfusion hl0
    · have hincl' : jsStringIncludes cw l = false := by
        cases hb : jsStringIncludes cw l
        · rfl
        · exact absurd hb hincl
      have hwon' := isGameWon_append_wrong hincl' hwon
      rw [hwon'] at hw0
      exact Bool.noConfusion hw0

/-- Counterexample to **C1**: because `addGuessedLetter` itself never checks
for game over, the raw command sequence x, y, z, q, w, e, r, c, a, t on the
word "cat" is reachable in the engine and ends in a state where `isGameWon`
and `isGameLost` are simultaneously true. -/
theorem c1_counterexample :
    Reachable ⟨"cat", ["x", "y", "z", "q", "w", "e", "r", "c", "a", "t"]⟩ ∧
    isGameWon "cat" ["x", "y", "z", "q", "w", "e", "r", "c", "a", "t"] = true ∧
    isGameLost "cat" ["x", "y", "z", "q", "w", "e", "r", "c", "a", "t"] = true := by
  refine ⟨?_, by decide, by decide⟩
  have h0 : Reachable ⟨"cat", []⟩ := Reachable.init "cat" (by decide)
  have h1 : Reachable ⟨"cat", ["x"]⟩ := h0.guessTo "x" (by decide) (by decide)
  have h2 : Reachable ⟨"cat", ["x", "y"]⟩ := h1.guessTo "y" (by decide) (by decide)
  have h3 : Reachable ⟨"cat", ["x", "y", "z"]⟩ :=
    h2.guessTo "z" (by decide) (by decide)
  have h4 : Reachable ⟨"cat", ["x", "y", "z", "q"]⟩ :=
    h3.guessTo "q" (by decide) (by decide)
  have h5 : Reachable ⟨"cat", ["x", "y", "z", "q", "w"]⟩ :=
    h4.guessTo "w" (by decide) (by decide)
  have h6 : Reachable ⟨"cat", ["x", "y", "z", "q", "w", "e"]⟩ :=
    h5.guessTo "e" (by decide) (by decide)
  have h7 : Reachable ⟨"cat", ["x", "y", "z", "q", "w", "e", "r"]⟩ :=
    h6.guessTo "r" (by decide) (by decide)
  have h8 : Reachable ⟨"cat", ["x", "y", "z", "q", "w", "e", "r", "c"]⟩ :=
    h7.guessTo "c" (by decide) (by decide)
  have h9 : Reachable ⟨"cat", ["x", "y", "z", "q", "w", "e", "r", "c", "a"]⟩ :=
    h8.guessTo "a" (by decide) (by decide)
  exact h9.guessTo "t" (by decide) (by decide)

/-- **C1** (amended): `isGameWon` and `isGameLost` are mutually exclusive for
every state reachable when guesses are only delivered while the game is not
over — the guard the view enforces through its disabled keyboard buttons. -/
theorem c1_won_lost_mutually_exclusive (s : GameState)
    (h : GuardedReachable s) :
    ¬(isGameWon s.currentWord s.guessedLetters = true ∧
      isGameLost s.currentWord s.guessedLetters = true) := by
  induction h with
  | init w hw => exact not_won_and_lost_nil w
  | @step s t hr hs ih =>
    cases hs with
    | newGame w hw => exact not_won_and_lost_nil w
    | guess l hl hover =>
      exact not_won_and_lost_step s.currentWord s.guessedLetters l hover

/-- Witness for the amended C1: the guarded state reached by guessing "x" on
a fresh "cat" round. -/
theorem c1_witness :
    ¬(isGameWon "cat" ["x"] = true ∧ isGameLost "cat" ["x"] = true) :=
  c1_won_lost_mutually_exclusive ⟨"cat", ["x"]⟩
    (GuardedReachable.step (GuardedReachable.init "cat" (by decide))
      (show GuardedStep ⟨"cat", []⟩ ⟨"cat", ["x"]⟩ from
        (by decide : addGuessedLetter "x" [] = ["x"]) ▸
          GuardedStep.guess ⟨"cat", []⟩ "x" (by decide) (by decide)))

end AssemblyEndgame
